import Mathlib

/-!
Shallow embedding of the core of `app.py` (a YouTube title/description/tag
extractor) and proofs about its components.

Modelling conventions:
  * Python strings are modelled as Lean `String` / `List Char`.
  * Network fetches and the regex engine are external collaborators; a
    strategy's pattern-match results enter the model as explicit inputs,
    while all post-match processing (normalisation, loops over patterns,
    merging, deduplication, URL parsing) is translated from the source.
  * Python's `codecs.decode(-, 'unicode_escape')`, `urllib.parse.urlparse`,
    `parse_qs` and UTF-8 encode/decode round trips are modelled by concrete
    executable functions that follow CPython's documented behaviour on the
    cases the program exercises.  Lone surrogates, which Lean's `Char`
    cannot represent, are modelled as U+FFFD; `\N{...}` named escapes
    (which need the external Unicode name database) are modelled as decode
    failures.
  * Every function is total and structurally recursive, so all definitions
    reduce inside the kernel.
-/

/-- The apostrophe character, written by code point. -/
def aposChar : Char := Char.ofNat 39

/-- The corrupted multi-byte lead character `ð` (U+00F0) that
`clean_description` uses as a garbled-UTF-8 signature. -/
def ethChar : Char := Char.ofNat 0xF0

/-- Characters treated as whitespace by Python's `str.strip()` /
`str.isspace` (ASCII whitespace, the C1 controls 0x1C-0x1F, NEL, NBSP and
the Unicode space separators). -/
def isSpaceChar (c : Char) : Bool :=
  (9 ≤ c.toNat && c.toNat ≤ 13) || (28 ≤ c.toNat && c.toNat ≤ 31) ||
  c.toNat == 32 || c.toNat == 0x85 || c.toNat == 0xA0 || c.toNat == 0x1680 ||
  (0x2000 ≤ c.toNat && c.toNat ≤ 0x200A) || c.toNat == 0x2028 ||
  c.toNat == 0x2029 || c.toNat == 0x205F || c.toNat == 0x3000

/-- Python `str.strip()`: remove leading and trailing whitespace. -/
def stripChars (l : List Char) : List Char :=
  ((l.dropWhile isSpaceChar).reverse.dropWhile isSpaceChar).reverse

/-- Python `str.split('\n')` (always returns at least one piece). -/
def splitNL : List Char → List (List Char)
  | [] => [[]]
  | c :: rest =>
    if c = '\n' then [] :: splitNL rest
    else
      match splitNL rest with
      | [] => [[c]]
      | l :: ls => (c :: l) :: ls

/-- Python `'\n'.join(pieces)`. -/
def joinNL : List (List Char) → List Char
  | [] => []
  | [l] => l
  | l :: ls => l ++ '\n' :: joinNL ls

/-- Python `re.sub(r'\n{3,}', '\n\n', s)`: keep at most two newlines of any
run of consecutive newlines.  `n` counts the newlines emitted for the run
currently being read. -/
def collapseNLAux (n : Nat) : List Char → List Char
  | [] => []
  | c :: rest =>
    if c = '\n' then
      if 2 ≤ n then collapseNLAux n rest
      else '\n' :: collapseNLAux (n + 1) rest
    else c :: collapseNLAux 0 rest

/-- Python `s.replace(a ++ b, r)` for a two-character pattern: left-to-right,
non-overlapping (all six escape replacements in `clean_description` have
two-character patterns and one-character replacements). -/
def replaceEsc (a b r : Char) : List Char → List Char
  | [] => []
  | [c] => [c]
  | x :: y :: rest =>
    if x = a ∧ y = b then r :: replaceEsc a b r rest
    else x :: replaceEsc a b r (y :: rest)

/-- Hexadecimal digit value. -/
def hexVal (c : Char) : Option Nat :=
  if '0' ≤ c ∧ c ≤ '9' then some (c.toNat - 48)
  else if 'a' ≤ c ∧ c ≤ 'f' then some (c.toNat - 87)
  else if 'A' ≤ c ∧ c ≤ 'F' then some (c.toNat - 55)
  else none

/-- Octal digit value. -/
def octVal (c : Char) : Option Nat :=
  if '0' ≤ c ∧ c ≤ '7' then some (c.toNat - 48) else none

/-- Turn a decoded code point into a `Char`; lone surrogates (which Lean
cannot represent) become U+FFFD. -/
def ueChar (n : Nat) : Char :=
  if 0xD800 ≤ n ∧ n ≤ 0xDFFF then Char.ofNat 0xFFFD else Char.ofNat n

/-- Core of CPython's `unicode_escape` decoder on a latin-1 byte string
(each input char is ≤ U+00FF).  `none` models a `UnicodeDecodeError`.
The fuel argument only forces structural recursion: every recursive call
consumes at least one character, so `length + 1` fuel is never exhausted. -/
def ueGo : Nat → List Char → Option (List Char)
  | 0, _ => none
  | _ + 1, [] => some []
  | fuel + 1, c :: rest =>
    if c = '\\' then
      match rest with
      | [] => none            -- lone backslash at end of string
      | e :: r =>
        if e = '\n' then ueGo fuel r                             -- line continuation
        else if e = 'n' then (ueGo fuel r).map ('\n' :: ·)
        else if e = 't' then (ueGo fuel r).map ('\t' :: ·)
        else if e = 'r' then (ueGo fuel r).map ('\r' :: ·)
        else if e = 'b' then (ueGo fuel r).map (Char.ofNat 8 :: ·)
        else if e = 'f' then (ueGo fuel r).map (Char.ofNat 12 :: ·)
        else if e = 'v' then (ueGo fuel r).map (Char.ofNat 11 :: ·)
        else if e = 'a' then (ueGo fuel r).map (Char.ofNat 7 :: ·)
        else if e = aposChar then (ueGo fuel r).map (aposChar :: ·)
        else if e = '"' then (ueGo fuel r).map ('"' :: ·)
        else if e = '\\' then (ueGo fuel r).map ('\\' :: ·)
        else if e = 'x' then
          match r with
          | h1 :: h2 :: r2 =>
            match hexVal h1, hexVal h2 with
            | some a, some b => (ueGo fuel r2).map (Char.ofNat (16 * a + b) :: ·)
            | _, _ => none
          | _ => none
        else if e = 'u' then
          match r with
          | h1 :: h2 :: h3 :: h4 :: r2 =>
            match hexVal h1, hexVal h2, hexVal h3, hexVal h4 with
            | some a, some b, some c3, some d =>
              (ueGo fuel r2).map (ueChar (4096 * a + 256 * b + 16 * c3 + d) :: ·)
            | _, _, _, _ => none
          | _ => none
        else if e = 'U' then
          match r with
          | h1 :: h2 :: h3 :: h4 :: h5 :: h6 :: h7 :: h8 :: r2 =>
            match hexVal h1, hexVal h2, hexVal h3, hexVal h4,
                  hexVal h5, hexVal h6, hexVal h7, hexVal h8 with
            | some a, some b, some c3, some d, some a2, some b2, some c4, some d2 =>
              let v := ((((((a * 16 + b) * 16 + c3) * 16 + d) * 16 + a2) * 16 + b2)
                          * 16 + c4) * 16 + d2
              if v ≤ 0x10FFFF then (ueGo fuel r2).map (ueChar v :: ·) else none
            | _, _, _, _, _, _, _, _ => none
          | _ => none
        else if e = 'N' then none   -- named escape: needs the external name database
        else
          match octVal e with
          | some d1 =>
            match r with
            | c2 :: r2 =>
              match octVal c2 with
              | some d2 =>
                match r2 with
                | c3 :: r3 =>
                  match octVal c3 with
                  | some d3 => (ueGo fuel r3).map (Char.ofNat (64 * d1 + 8 * d2 + d3) :: ·)
                  | none => (ueGo fuel r2).map (Char.ofNat (8 * d1 + d2) :: ·)
                | [] => (ueGo fuel r2).map (Char.ofNat (8 * d1 + d2) :: ·)
              | none => (ueGo fuel r).map (Char.ofNat d1 :: ·)
            | [] => (ueGo fuel r).map (Char.ofNat d1 :: ·)
          | none => (ueGo fuel r).map (fun l => '\\' :: e :: l)  -- unknown escape kept verbatim
    else (ueGo fuel rest).map (c :: ·)

/-- Python `codecs.decode(s, 'unicode_escape')` on a `str`: the string is
first encoded with latin-1 (failing on any char above U+00FF), then the
escape decoder runs.  `none` models the exceptions the source catches. -/
def unicodeEscapeDecode (l : List Char) : Option (List Char) :=
  if l.any (fun c => 255 < c.toNat) then none else ueGo (l.length + 1) l

/-- First pipeline stage of `clean_description` (app.py lines 25-29): try
the unicode-escape decode, keep the text unchanged on failure. -/
def cdDecode (l : List Char) : List Char :=
  match unicodeEscapeDecode l with
  | some t => t
  | none => l

/-- Second stage (app.py lines 32-37): the six literal escape replacements,
in source order. -/
def cdEscapes (l : List Char) : List Char :=
  replaceEsc '\\' '\\' '\\'
    (replaceEsc '\\' aposChar aposChar
      (replaceEsc '\\' '"' '"'
        (replaceEsc '\\' 't' '\t'
          (replaceEsc '\\' 'r' '\r'
            (replaceEsc '\\' 'n' '\n' l)))))

/-- Strict UTF-8 decoding of a byte list (rejects overlong forms and
surrogates, like Python's strict `bytes.decode('utf-8')`). -/
def utf8DecodeStrict : List Nat → Option (List Char)
  | [] => some []
  | b :: rest =>
    if b < 0x80 then (utf8DecodeStrict rest).map (Char.ofNat b :: ·)
    else if b < 0xC2 then none
    else if b < 0xE0 then
      match rest with
      | b2 :: r2 =>
        if 0x80 ≤ b2 ∧ b2 < 0xC0 then
          (utf8DecodeStrict r2).map (Char.ofNat ((b - 0xC0) * 64 + (b2 - 0x80)) :: ·)
        else none
      | [] => none
    else if b < 0xF0 then
      match rest with
      | b2 :: b3 :: r2 =>
        let lo2 := if b = 0xE0 then 0xA0 else 0x80
        let hi2 := if b = 0xED then 0xA0 else 0xC0
        if lo2 ≤ b2 ∧ b2 < hi2 ∧ 0x80 ≤ b3 ∧ b3 < 0xC0 then
          (utf8DecodeStrict r2).map
            (Char.ofNat ((b - 0xE0) * 4096 + (b2 - 0x80) * 64 + (b3 - 0x80)) :: ·)
        else none
      | _ => none
    else if b < 0xF5 then
      match rest with
      | b2 :: b3 :: b4 :: r2 =>
        let lo2 := if b = 0xF0 then 0x90 else 0x80
        let hi2 := if b = 0xF4 then 0x90 else 0xC0
        if lo2 ≤ b2 ∧ b2 < hi2 ∧ 0x80 ≤ b3 ∧ b3 < 0xC0 ∧ 0x80 ≤ b4 ∧ b4 < 0xC0 then
          (utf8DecodeStrict r2).map
            (Char.ofNat ((b - 0xF0) * 262144 + (b2 - 0x80) * 4096 +
                          (b3 - 0x80) * 64 + (b4 - 0x80)) :: ·)
        else none
      | _ => none
    else none

/-- Python `s.encode('latin-1')`: one byte per char, failing above U+00FF. -/
def encodeLatin1 (l : List Char) : Option (List Nat) :=
  if l.any (fun c => 255 < c.toNat) then none else some (l.map Char.toNat)

/-- Third stage (app.py lines 41-53): garbled-UTF-8 repair.  If the text
contains the signature `ð` or any char above U+00FF, try re-encoding as
latin-1 and re-decoding as UTF-8; on failure fall back to the UTF-8
`errors='ignore'` round trip, which is the identity on Lean strings
(they contain no surrogates), so the final strip-to-ASCII resort of the
source is unreachable in the model. -/
def fixGarbled (l : List Char) : List Char :=
  if l.contains ethChar || l.any (fun c => 255 < c.toNat) then
    match encodeLatin1 l with
    | some bytes =>
      match utf8DecodeStrict bytes with
      | some t => t
      | none => l
    | none => l
  else l

/-- Fourth and fifth stages (app.py lines 56-66): strip every line, rejoin
with single newlines, then collapse runs of three or more newlines. -/
def cdWhitespace (l : List Char) : List Char :=
  collapseNLAux 0 (joinNL ((splitNL l).map stripChars))

/-- Seventh stage (app.py lines 75-76): truncate to 2000 characters and
append a three-dot ellipsis if truncated.  (The sixth stage, the UTF-8
re-encode/decode of line 70, is the identity on Lean strings, which are
always valid Unicode.) -/
def cdTruncate (l : List Char) : List Char :=
  if 2000 < l.length then l.take 2000 ++ ['.', '.', '.'] else l

/-- `clean_description` (app.py lines 17-82), the text normalizer.  The
model is total, so the outer `except` branch returning a diagnostic string
is unreachable: every guarded operation has its fallback modelled. -/
def clean_description (raw : String) : String :=
  String.mk (stripChars (cdTruncate (cdWhitespace (fixGarbled (cdEscapes (cdDecode raw.data))))))

/-! ## Extraction results, strategies and the orchestrator -/

/-- `{'title': ..., 'description': ...}` dictionaries of the source. -/
structure ExtractionResult where
  title : String
  description : String
deriving DecidableEq, Repr

/-- The title sentinels the orchestrator tests against (app.py line 100). -/
def titleSentinels : List String := ["Title not found", "Error"]

/-- The description sentinels the orchestrator tests against (app.py
lines 101 and 110). -/
def descSentinels : List String := ["Description not found", "Error"]

/-- The pattern loops of methods 1 and 2 (app.py lines 169-174, 185-190,
219-225, 234-239): start from the sentinel, and for each pattern that
matched, normalise the match (after the per-method preprocessing `f`) and
stop at the first non-empty result; an empty cleaned match is kept as the
current value and the scan continues.  The list holds each pattern's
`group(1)`, in pattern order (`none` = pattern did not match); the regex
engine itself is an external collaborator. -/
def scanPatterns (f : String → String) (cur : String) : List (Option String) → String
  | [] => cur
  | none :: rest => scanPatterns f cur rest
  | some m :: rest =>
    if stripChars (f m).data = [] then scanPatterns f (f m) rest else f m

/-- Python `s.replace(' - YouTube', '')` used on titles by methods 2 and 3:
left-to-right non-overlapping replacement, fuel-based for structural
recursion (fuel = length suffices since the pattern is non-empty). -/
def removeAllAux (pat : List Char) : Nat → List Char → List Char
  | 0, s => s
  | _ + 1, [] => []
  | fuel + 1, c :: rest =>
    if pat ≠ [] ∧ pat.isPrefixOf (c :: rest) then
      removeAllAux pat fuel ((c :: rest).drop pat.length)
    else c :: removeAllAux pat fuel rest

/-- Strip every occurrence of the literal `\" - YouTube\"` from a matched
title, as `raw_title.replace(' - YouTube', '')` does. -/
def stripYoutubeSuffix (s : String) : String :=
  String.mk (removeAllAux " - YouTube".data s.data.length s.data)

/-- `get_youtube_info_method1` (app.py lines 135-192) after a successful,
non-blocked fetch: the network fetch, the blocking check and the regex
engine are external, so the strategy is a function of the match results of
its four title patterns and four description patterns. -/
def get_youtube_info_method1 (titleMatches descMatches : List (Option String)) :
    ExtractionResult :=
  { title := scanPatterns clean_description "Title not found" titleMatches
    description := scanPatterns clean_description "Description not found" descMatches }

/-- `get_youtube_info_method2` (app.py lines 194-241) after a successful
mobile-page fetch: like method 1, but every matched title has the literal
`\" - YouTube\"` removed before normalisation. -/
def get_youtube_info_method2 (titleMatches descMatches : List (Option String)) :
    ExtractionResult :=
  { title := scanPatterns (fun m => clean_description (stripYoutubeSuffix m))
      "Title not found" titleMatches
    description := scanPatterns clean_description "Description not found" descMatches }

/-- `get_youtube_info_method3` (app.py lines 243-300).  `primary = some
(titleField, descMatch)` models the oEmbed endpoint answering HTTP 200 with
a JSON body whose optional `title` field is `titleField`, followed by the
main-page fetch whose single `\"shortDescription\"` pattern yielded
`descMatch`; the oEmbed title is returned as-is via `data.get('title',
'Title not found')`.  `primary = none` models any failure of that block,
after which the fallback GET extracts the title from `<title>`
(suffix-stripped, normalised) and the description from the Open Graph meta
tag (normalised). -/
def get_youtube_info_method3 (primary : Option (Option String × Option String))
    (fallbackTitle fallbackDesc : Option String) : ExtractionResult :=
  match primary with
  | some (titleField, descMatch) =>
    { title := titleField.getD "Title not found"
      description :=
        match descMatch with
        | some m => clean_description m
        | none => "Description not found" }
  | none =>
    { title :=
        match fallbackTitle with
        | some m => clean_description (stripYoutubeSuffix m)
        | none => "Title not found"
      description :=
        match fallbackDesc with
        | some m => clean_description m
        | none => "Description not found" }

/-- Inner loop of the orchestrator (app.py lines 107-116): scan the
remaining strategies, in order, for the first outcome whose description is
not a sentinel; a raised exception (`none`) is skipped. -/
def findDescAfter : List (Option ExtractionResult) → Option String
  | [] => none
  | none :: rest => findDescAfter rest
  | some r :: rest =>
    if r.description ∉ descSentinels then some r.description
    else findDescAfter rest

/-- `get_youtube_info` (app.py lines 84-133), the orchestrator, as a
function of the strategies' outcomes in invocation order (`none` = the
strategy raised; re-invocation in the inner scan is modelled as returning
the same outcome).  The source's outer `except` branch is unreachable: the
loop body catches every strategy failure. -/
def get_youtube_info (outcomes : List (Option ExtractionResult)) : ExtractionResult :=
  match outcomes with
  | [] => { title := "All extraction methods failed"
            description := "Could not extract video information" }
  | none :: rest => get_youtube_info rest
  | some r :: rest =>
    if r.title ∉ titleSentinels ∧ r.description ∉ descSentinels then r
    else if r.title ∉ titleSentinels then
      match findDescAfter rest with
      | some d => { title := r.title, description := d }
      | none => r
    else get_youtube_info rest

/-! ## Tag extraction -/

/-- Scanner for `re.search(r'\"<key>\":\s*\[(.*?)\]', text)`: find the
leftmost position where the literal `\"<key>\":` is followed by optional
whitespace, `[`, and a `]` on the same line (`.` does not match newlines);
return the captured array body. -/
def searchArrayBody (pat : List Char) : List Char → Option (List Char)
  | [] => none
  | c :: rest =>
    let attempt : Option (List Char) :=
      if pat.isPrefixOf (c :: rest) then
        let afterKey := ((c :: rest).drop pat.length).dropWhile isSpaceChar
        match afterKey with
        | '[' :: afterBracket =>
          let body := afterBracket.takeWhile (fun c2 => c2 != ']' && c2 != '\n')
          match afterBracket.dropWhile (fun c2 => c2 != ']' && c2 != '\n') with
          | ']' :: _ => some body
          | _ => none
        | _ => none
      else none
    match attempt with
    | some body => some body
    | none => searchArrayBody pat rest

/-- `re.findall(r'\"([^\"]*)\"', s)`: all quoted literals, left to right,
non-overlapping.  `cur = some acc` means a quote is open with the reversed
content read so far; an unterminated quote yields no further matches. -/
def findallQuoted (cur : Option (List Char)) : List Char → List (List Char)
  | [] => []
  | c :: rest =>
    match cur with
    | none =>
      if c = '"' then findallQuoted (some []) rest else findallQuoted none rest
    | some acc =>
      if c = '"' then acc.reverse :: findallQuoted none rest
      else findallQuoted (some (c :: acc)) rest

/-- All quoted strings of the first `\"<key>\": [...]` array in the page,
or `[]` when the pattern does not match. -/
def tagsFromPattern (key : List Char) (content : List Char) : List String :=
  match searchArrayBody ('"' :: key ++ ['"', ':']) content with
  | some body => (findallQuoted none body).map String.mk
  | none => []

/-- The deduplication loop of `get_youtube_tags` (app.py lines 334-339):
`seen` collects the raw tags; a raw tag not seen before whose stripped form
is non-empty appends its *stripped* form to the output. -/
def dedupTags (seen : List String) : List String → List String
  | [] => []
  | tag :: rest =>
    if tag ∈ seen ∨ stripChars tag.data = [] then dedupTags seen rest
    else String.mk (stripChars tag.data) :: dedupTags (tag :: seen) rest

/-- `get_youtube_tags` (app.py lines 302-345) as a function of the fetched
page text: concatenate the quoted strings of the `keywords`, `tags` and
`hashtags` arrays (in pattern order), deduplicate, cap at 20.  A network
failure returns `[]` through the outer `except`; that case needs no
modelling here since every claim is about a fetched page. -/
def get_youtube_tags (content : String) : List String :=
  let all_tags := tagsFromPattern "keywords".data content.data ++
    tagsFromPattern "tags".data content.data ++
    tagsFromPattern "hashtags".data content.data
  (dedupTags [] all_tags).take 20

/-! ## URL parsing and video-id extraction -/

/-- UTF-8 decoding with `errors='replace'`: undecodable bytes become
U+FFFD (resynchronising one byte after the offending lead byte). -/
def utf8DecodeReplace : Nat → List Nat → List Char
  | 0, _ => []
  | _ + 1, [] => []
  | fuel + 1, b :: rest =>
    if b < 0x80 then Char.ofNat b :: utf8DecodeReplace fuel rest
    else if 0xC2 ≤ b ∧ b < 0xE0 then
      match rest with
      | b2 :: r2 =>
        if 0x80 ≤ b2 ∧ b2 < 0xC0 then
          Char.ofNat ((b - 0xC0) * 64 + (b2 - 0x80)) :: utf8DecodeReplace fuel r2
        else Char.ofNat 0xFFFD :: utf8DecodeReplace fuel rest
      | [] => [Char.ofNat 0xFFFD]
    else if 0xE0 ≤ b ∧ b < 0xF0 then
      match rest with
      | b2 :: b3 :: r2 =>
        if (if b = 0xE0 then 0xA0 else 0x80) ≤ b2 ∧ b2 < (if b = 0xED then 0xA0 else 0xC0) ∧
            0x80 ≤ b3 ∧ b3 < 0xC0 then
          Char.ofNat ((b - 0xE0) * 4096 + (b2 - 0x80) * 64 + (b3 - 0x80)) ::
            utf8DecodeReplace fuel r2
        else Char.ofNat 0xFFFD :: utf8DecodeReplace fuel rest
      | _ :: [] => [Char.ofNat 0xFFFD, Char.ofNat 0xFFFD]
      | [] => [Char.ofNat 0xFFFD]
    else if 0xF0 ≤ b ∧ b < 0xF5 then
      match rest with
      | b2 :: b3 :: b4 :: r2 =>
        if (if b = 0xF0 then 0x90 else 0x80) ≤ b2 ∧ b2 < (if b = 0xF4 then 0x90 else 0xC0) ∧
            0x80 ≤ b3 ∧ b3 < 0xC0 ∧ 0x80 ≤ b4 ∧ b4 < 0xC0 then
          Char.ofNat ((b - 0xF0) * 262144 + (b2 - 0x80) * 4096 + (b3 - 0x80) * 64 +
              (b4 - 0x80)) :: utf8DecodeReplace fuel r2
        else Char.ofNat 0xFFFD :: utf8DecodeReplace fuel rest
      | _ => [Char.ofNat 0xFFFD]
    else Char.ofNat 0xFFFD :: utf8DecodeReplace fuel rest

/-- Python `urllib.parse.unquote_plus`: `+` becomes a space and runs of
`%XX` bytes are percent-decoded as UTF-8 with `errors='replace'`.
`pending` holds the (reversed) byte run read so far. -/
def unquoteAux (pending : List Nat) : List Char → List Char
  | [] => utf8DecodeReplace (pending.length + 1) pending.reverse
  | '%' :: c1 :: c2 :: rest =>
    match hexVal c1, hexVal c2 with
    | some a, some b => unquoteAux ((16 * a + b) :: pending) rest
    | _, _ =>
      utf8DecodeReplace (pending.length + 1) pending.reverse ++
        '%' :: unquoteAux [] (c1 :: c2 :: rest)
  | c :: rest =>
    utf8DecodeReplace (pending.length + 1) pending.reverse ++
      (if c = '+' then ' ' else c) :: unquoteAux [] rest

/-- Python `urllib.parse.unquote_plus` on a query component. -/
def pyUnquotePlus (l : List Char) : List Char := unquoteAux [] l

/-- Python `s.split(sep)` for a one-character separator. -/
def splitOnChar (sep : Char) : List Char → List (List Char)
  | [] => [[]]
  | c :: rest =>
    if c = sep then [] :: splitOnChar sep rest
    else
      match splitOnChar sep rest with
      | [] => [[c]]
      | l :: ls => (c :: l) :: ls

/-- The components returned by `urllib.parse.urlparse` that the source
reads (`params` is never used, so it is left merged into `path`; none of
the inspected URL shapes use path parameters). -/
structure PyUrl where
  scheme : List Char
  netloc : List Char
  path : List Char
  query : List Char
  fragment : List Char
deriving DecidableEq, Repr

/-- Characters allowed in a URL scheme (`scheme_chars` of CPython). -/
def isSchemeChar (c : Char) : Bool :=
  c.isAlpha || c.isDigit || c == '+' || c == '-' || c == '.'

/-- `urllib.parse.urlparse` as implemented by CPython's `urlsplit`: strip
tab/CR/LF anywhere, split off a scheme when the text before the first `:`
is a valid scheme starting with an ASCII letter, read the netloc after
`//` up to `/`, `?` or `#`, then split off fragment and query. -/
def pyUrlparse (input : List Char) : PyUrl :=
  let u0 := input.filter (fun c => !(c == '\t' || c == '\n' || c == '\r'))
  let beforeColon := u0.takeWhile (fun c => c != ':')
  let afterColon := u0.dropWhile (fun c => c != ':')
  let hasScheme :=
    match afterColon, beforeColon with
    | ':' :: _, c0 :: _ => c0.isAlpha && beforeColon.all isSchemeChar
    | _, _ => false
  let scheme := if hasScheme then beforeColon.map Char.toLower else []
  let u1 := if hasScheme then afterColon.drop 1 else u0
  let netlocDelim : Char → Bool := fun c => !(c == '/' || c == '?' || c == '#')
  let netloc :=
    match u1 with
    | '/' :: '/' :: rest => rest.takeWhile netlocDelim
    | _ => []
  let u2 :=
    match u1 with
    | '/' :: '/' :: rest => rest.dropWhile netlocDelim
    | _ => u1
  let pathQuery := u2.takeWhile (fun c => c != '#')
  let fragment := (u2.dropWhile (fun c => c != '#')).drop 1
  let path := pathQuery.takeWhile (fun c => c != '?')
  let query := (pathQuery.dropWhile (fun c => c != '?')).drop 1
  ⟨scheme, netloc, path, query, fragment⟩

/-- The `hostname` attribute of a parse result: the netloc after the last
`@`, with a port or a bracketed IPv6 literal reduced to the host part,
lowercased; `None` when empty. -/
def pyHostname (netloc : List Char) : Option (List Char) :=
  let hostport := (netloc.reverse.takeWhile (fun c => c != '@')).reverse
  let host :=
    match hostport with
    | '[' :: rest => rest.takeWhile (fun c => c != ']')
    | _ => hostport.takeWhile (fun c => c != ':')
  if host = [] then none else some (host.map Char.toLower)

/-- `urllib.parse.parse_qs(query).get('v', [None])[0]`: the first value of
the `v` parameter.  `parse_qsl` splits on `&`, skips pieces without `=` or
with an empty value (`keep_blank_values` is false) and unquotes names and
values. -/
def qsFirstV (query : List Char) : Option (List Char) :=
  let pairs := (splitOnChar '&' query).filterMap (fun part =>
    let name := part.takeWhile (fun c => c != '=')
    match part.dropWhile (fun c => c != '=') with
    | '=' :: value =>
      if value = [] then none
      else some (pyUnquotePlus name, pyUnquotePlus value)
    | _ => none)
  (pairs.find? (fun p => p.1 == "v".data)).map (fun p => p.2)

/-- Text after the first occurrence of `pat` (fuel-based scan over every
start position, like `s.split(pat)[1:]`'s first step). -/
def afterFirst (pat : List Char) : Nat → List Char → Option (List Char)
  | 0, _ => none
  | fuel + 1, l =>
    if pat.isPrefixOf l then some (l.drop pat.length)
    else
      match l with
      | [] => none
      | _ :: rest => afterFirst pat fuel rest

/-- Text before the first occurrence of `pat` (the whole text when `pat`
does not occur). -/
def beforeFirst (pat : List Char) : Nat → List Char → List Char
  | 0, l => l
  | fuel + 1, l =>
    if pat.isPrefixOf l then []
    else
      match l with
      | [] => []
      | c :: rest => c :: beforeFirst pat fuel rest

/-- Python `s.split(pat)[1]`: the text between the first and the second
occurrence of `pat` (used with an occurrence of `pat` guaranteed by the
enclosing `in` check). -/
def pySplitPart1 (pat l : List Char) : List Char :=
  match afterFirst pat (l.length + 1) l with
  | some t => beforeFirst pat (t.length + 1) t
  | none => []

/-- Python's substring containment `pat in s`. -/
def isSubstringOf (pat : List Char) : List Char → Bool
  | [] => pat.isPrefixOf ([] : List Char)
  | c :: rest => pat.isPrefixOf (c :: rest) || isSubstringOf pat rest

/-- The final clean-up of `get_video_id_from_url` (app.py line 366):
`video_id.split('&')[0].split('?')[0]`. -/
def cleanId (v : List Char) : List Char :=
  (v.takeWhile (fun c => c != '&')).takeWhile (fun c => c != '?')

/-- The shape dispatch of `get_video_id_from_url` (app.py lines 350-362),
before the final clean-up. -/
def rawVideoId (url : List Char) : Option (List Char) :=
  let parsed := pyUrlparse url
  let host := pyHostname parsed.netloc
  if host = some "youtu.be".data then some (parsed.path.drop 1)
  else if host = some "www.youtube.com".data ∨ host = some "youtube.com".data then
    if isSubstringOf "/watch".data parsed.path then qsFirstV parsed.query
    else if isSubstringOf "/embed/".data parsed.path then
      some ((pySplitPart1 "/embed/".data parsed.path).takeWhile (fun c => c != '?'))
    else if isSubstringOf "/v/".data parsed.path then
      some ((pySplitPart1 "/v/".data parsed.path).takeWhile (fun c => c != '?'))
    else none
  else none

/-- `get_video_id_from_url` (app.py lines 347-371).  A falsy (`None` or
empty) id skips the clean-up; the empty string is still returned as a
string, not as `None`.  The model is total, so the `except` branch
returning `None` is unreachable. -/
def get_video_id_from_url (video_url : String) : Option String :=
  match rawVideoId video_url.data with
  | none => none
  | some v => if v = [] then some (String.mk v) else some (String.mk (cleanId v))

/-! ## Properties of the text normalizer -/

theorem stripChars_length_le (l : List Char) : (stripChars l).length ≤ l.length := by
  unfold stripChars
  rw [List.length_reverse]
  calc ((l.dropWhile isSpaceChar).reverse.dropWhile isSpaceChar).length
      ≤ (l.dropWhile isSpaceChar).reverse.length :=
        (List.dropWhile_sublist isSpaceChar).length_le
    _ = (l.dropWhile isSpaceChar).length := List.length_reverse _
    _ ≤ l.length := (List.dropWhile_sublist isSpaceChar).length_le

/-- C6: the normalizer's output never exceeds 2003 characters (2000 plus
the three-dot ellipsis), for every input; the model being a total
function also witnesses that the normalizer never raises. -/
theorem C6_normalizer_length_bound (s : String) : (clean_description s).length ≤ 2003 := by
  show (stripChars (cdTruncate (cdWhitespace (fixGarbled (cdEscapes (cdDecode s.data)))))).length ≤ 2003
  generalize cdWhitespace (fixGarbled (cdEscapes (cdDecode s.data))) = l
  refine le_trans (stripChars_length_le _) ?_
  unfold cdTruncate
  split
  · rw [List.length_append, List.length_take]
    simp
  · omega

theorem ueGo_id (l : List Char) : ∀ fuel : Nat, l.length < fuel → '\\' ∉ l →
    ueGo fuel l = some l := by
  induction l with
  | nil =>
    intro fuel hf _
    match fuel, hf with
    | f + 1, _ => rfl
  | cons c rest ih =>
    intro fuel hf hmem
    match fuel, hf with
    | f + 1, hf =>
      have hc : c ≠ '\\' := fun h => hmem (h ▸ List.mem_cons_self c rest)
      have hrest : '\\' ∉ rest := fun h => hmem (List.mem_cons_of_mem c h)
      have : ueGo (f + 1) (c :: rest) = (ueGo f rest).map (c :: ·) := by
        simp only [ueGo, if_neg hc]
      rw [this, ih f (by simpa using Nat.lt_of_succ_lt_succ hf) hrest]
      rfl

theorem cdDecode_id (l : List Char) (hascii : ∀ c ∈ l, c.toNat < 128)
    (hbs : '\\' ∉ l) : cdDecode l = l := by
  have hany : l.any (fun c => 255 < c.toNat) = false := by
    rw [List.any_eq_false]
    intro c hc
    simp only [decide_eq_true_eq]
    exact fun h => absurd (hascii c hc) (by omega)
  unfold cdDecode unicodeEscapeDecode
  rw [hany]
  simp only [Bool.false_eq_true, if_false]
  rw [ueGo_id l (l.length + 1) (Nat.lt_succ_self _) hbs]

theorem replaceEsc_backslash_id (b r : Char) (l : List Char) (hbs : '\\' ∉ l) :
    replaceEsc '\\' b r l = l := by
  induction l with
  | nil => rfl
  | cons x t ih =>
    have hx : x ≠ '\\' := fun h => hbs (h ▸ List.mem_cons_self x t)
    have ht : '\\' ∉ t := fun h => hbs (List.mem_cons_of_mem x h)
    cases t with
    | nil => rfl
    | cons y rest =>
      have : replaceEsc '\\' b r (x :: y :: rest) =
          x :: replaceEsc '\\' b r (y :: rest) := by
        simp only [replaceEsc, if_neg (fun h : x = '\\' ∧ y = b => hx h.1)]
      rw [this, ih ht]

theorem cdEscapes_id (l : List Char) (hbs : '\\' ∉ l) : cdEscapes l = l := by
  unfold cdEscapes
  rw [replaceEsc_backslash_id _ _ _ hbs, replaceEsc_backslash_id _ _ _ hbs,
    replaceEsc_backslash_id _ _ _ hbs, replaceEsc_backslash_id _ _ _ hbs,
    replaceEsc_backslash_id _ _ _ hbs, replaceEsc_backslash_id _ _ _ hbs]

theorem fixGarbled_id (l : List Char) (hascii : ∀ c ∈ l, c.toNat < 128) :
    fixGarbled l = l := by
  have hcont : l.contains ethChar = false := by
    rw [List.contains, List.elem_eq_mem, decide_eq_false_iff_not]
    intro hmem
    have := hascii ethChar hmem
    simp [ethChar] at this
  have hany : l.any (fun c => 255 < c.toNat) = false := by
    rw [List.any_eq_false]
    intro c hc
    simp only [decide_eq_true_eq]
    exact fun h => absurd (hascii c hc) (by omega)
  unfold fixGarbled
  rw [hcont, hany]
  rfl

theorem splitNL_ne_nil (l : List Char) : splitNL l ≠ [] := by
  cases l with
  | nil => simp [splitNL]
  | cons c rest =>
    simp only [splitNL]
    split
    · simp
    · split <;> simp

theorem joinNL_splitNL (l : List Char) : joinNL (splitNL l) = l := by
  induction l with
  | nil => rfl
  | cons c rest ih =>
    by_cases hc : c = '\n'
    · subst hc
      have h1 : splitNL ('\n' :: rest) = [] :: splitNL rest := by
        simp [splitNL]
      rw [h1]
      obtain ⟨p, ps, hps⟩ := List.exists_cons_of_ne_nil (splitNL_ne_nil rest)
      rw [hps]
      show '\n' :: joinNL (p :: ps) = '\n' :: rest
      rw [← hps, ih]
    · obtain ⟨p, ps, hps⟩ := List.exists_cons_of_ne_nil (splitNL_ne_nil rest)
      have h1 : splitNL (c :: rest) = (c :: p) :: ps := by
        simp only [splitNL, if_neg hc, hps]
      rw [h1]
      cases ps with
      | nil =>
        show c :: p = c :: rest
        have : joinNL (splitNL rest) = rest := ih
        rw [hps] at this
        simpa using this
      | cons q qs =>
        show (c :: p) ++ '\n' :: joinNL (q :: qs) = c :: rest
        have : joinNL (splitNL rest) = rest := ih
        rw [hps] at this
        have h2 : p ++ '\n' :: joinNL (q :: qs) = rest := this
        simpa using h2

theorem map_stripChars_id (L : List (List Char)) (h : ∀ x ∈ L, stripChars x = x) :
    L.map stripChars = L := by
  induction L with
  | nil => rfl
  | cons x xs ih =>
    simp only [List.map_cons]
    rw [h x (List.mem_cons_self x xs), ih (fun y hy => h y (List.mem_cons_of_mem x hy))]

theorem isSubstringOf_append_left (pat pre l : List Char)
    (h : isSubstringOf pat l = true) : isSubstringOf pat (pre ++ l) = true := by
  induction pre with
  | nil => simpa using h
  | cons c cs ih =>
    show isSubstringOf pat (c :: (cs ++ l)) = true
    cases pat with
    | nil => simp [isSubstringOf]
    | cons p ps =>
      simp only [isSubstringOf, Bool.or_eq_true]
      exact Or.inr ih

theorem collapseNLAux_id (l : List Char) : ∀ n : Nat, n ≤ 2 →
    isSubstringOf ['\n', '\n', '\n'] (List.replicate n '\n' ++ l) = false →
    collapseNLAux n l = l := by
  induction l with
  | nil => intro n _ _; rfl
  | cons c rest ih =>
    intro n hn hsub
    by_cases hc : c = '\n'
    · subst hc
      by_cases h2 : 2 ≤ n
      · exfalso
        have hn2 : n = 2 := by omega
        subst hn2
        rw [show (List.replicate 2 '\n' ++ '\n' :: rest) = '\n' :: '\n' :: '\n' :: rest by rfl] at hsub
        have : isSubstringOf ['\n', '\n', '\n'] ('\n' :: '\n' :: '\n' :: rest) = true := by
          simp [isSubstringOf, List.isPrefixOf]
        rw [this] at hsub
        simp at hsub
      · have heq : collapseNLAux n ('\n' :: rest) = '\n' :: collapseNLAux (n + 1) rest := by
          simp [collapseNLAux, h2]
        rw [heq]
        have hrep : List.replicate (n + 1) '\n' ++ rest = List.replicate n '\n' ++ '\n' :: rest := by
          rw [List.replicate_succ']
          simp
        rw [ih (n + 1) (by omega) (by rw [hrep]; exact hsub)]
    · have heq : collapseNLAux n (c :: rest) = c :: collapseNLAux 0 rest := by
        simp [collapseNLAux, hc]
      rw [heq]
      refine congrArg (c :: ·) (ih 0 (by omega) ?_)
      rw [show (List.replicate 0 '\n' ++ rest) = rest by simp]
      by_contra hne
      have htrue : isSubstringOf ['\n', '\n', '\n'] rest = true := by
        cases h : isSubstringOf ['\n', '\n', '\n'] rest
        · exact absurd h hne
        · rfl
      have : isSubstringOf ['\n', '\n', '\n'] ((List.replicate n '\n' ++ [c]) ++ rest) = true :=
        isSubstringOf_append_left _ _ _ htrue
      rw [show ((List.replicate n '\n' ++ [c]) ++ rest) = List.replicate n '\n' ++ c :: rest by simp] at this
      rw [this] at hsub
      simp at hsub

/-- Already-clean ASCII text: only ASCII characters, no backslashes (so no
escape sequences and no garbled-encoding signature), every line already
stripped, no run of three newlines, within the 2000-character budget, and
no surrounding whitespace. -/
def isCleanAscii (s : String) : Prop :=
  (∀ c ∈ s.data, c.toNat < 128) ∧
  '\\' ∉ s.data ∧
  (∀ l ∈ splitNL s.data, stripChars l = l) ∧
  isSubstringOf ['\n', '\n', '\n'] s.data = false ∧
  s.data.length ≤ 2000 ∧
  stripChars s.data = s.data

/-- On already-clean ASCII text every stage of the normalizer is the
identity. -/
theorem clean_description_of_clean (s : String) (h : isCleanAscii s) :
    clean_description s = s := by
  obtain ⟨hascii, hbs, hlines, htriple, hlen, hstrip⟩ := h
  unfold clean_description
  rw [cdDecode_id s.data hascii hbs, cdEscapes_id s.data hbs, fixGarbled_id s.data hascii]
  unfold cdWhitespace
  rw [map_stripChars_id _ hlines, joinNL_splitNL, collapseNLAux_id s.data 0 (by omega)
    (by simpa using htriple)]
  unfold cdTruncate
  rw [if_neg (by omega)]
  rw [hstrip]

/-- C5: the normalizer is idempotent on already-clean ASCII text. -/
theorem C5_normalizer_idempotent_on_clean_ascii (s : String) (h : isCleanAscii s) :
    clean_description (clean_description s) = clean_description s := by
  rw [clean_description_of_clean s h]
  exact clean_description_of_clean s h

/-- Witness for C5 at the concrete clean ASCII string `"Hello world"`. -/
theorem C5_witness :
    clean_description (clean_description "Hello world") = clean_description "Hello world" :=
  C5_normalizer_idempotent_on_clean_ascii "Hello world" (by
    refine ⟨?_, ?_, ?_, ?_, ?_, ?_⟩ <;> decide)

/-! ## Properties of the orchestrator -/

/-- An outcome the orchestrator's loop walks past without returning: a
raised exception or a result whose title is a sentinel. -/
def skippedOutcome (x : Option ExtractionResult) : Bool :=
  match x with
  | none => true
  | some r => decide (r.title ∈ titleSentinels)

/-- An outcome the inner description scan walks past: a raised exception
or a result whose description is a sentinel. -/
def noUsableDesc (x : Option ExtractionResult) : Bool :=
  match x with
  | none => true
  | some r => decide (r.description ∈ descSentinels)

theorem get_youtube_info_skip (pre rest : List (Option ExtractionResult))
    (h : ∀ x ∈ pre, skippedOutcome x = true) :
    get_youtube_info (pre ++ rest) = get_youtube_info rest := by
  induction pre with
  | nil => rfl
  | cons x xs ih =>
    have hxs := fun y hy => h y (List.mem_cons_of_mem x hy)
    cases x with
    | none =>
      show get_youtube_info (none :: (xs ++ rest)) = get_youtube_info rest
      rw [show get_youtube_info (none :: (xs ++ rest)) = get_youtube_info (xs ++ rest) from rfl]
      exact ih hxs
    | some r =>
      have hr : r.title ∈ titleSentinels := by
        have := h (some r) (List.mem_cons_self _ _)
        simpa [skippedOutcome] using this
      show get_youtube_info (some r :: (xs ++ rest)) = get_youtube_info rest
      simp only [get_youtube_info]
      rw [if_neg (fun hc => hc.1 hr), if_neg (fun hc => hc hr)]
      exact ih hxs

theorem findDescAfter_none (l : List (Option ExtractionResult))
    (h : ∀ x ∈ l, noUsableDesc x = true) : findDescAfter l = none := by
  induction l with
  | nil => rfl
  | cons x xs ih =>
    have hxs := fun y hy => h y (List.mem_cons_of_mem x hy)
    cases x with
    | none => exact ih hxs
    | some r =>
      have hr : r.description ∈ descSentinels := by
        have := h (some r) (List.mem_cons_self _ _)
        simpa [noUsableDesc] using this
      show findDescAfter (some r :: xs) = none
      simp only [findDescAfter]
      rw [if_neg (fun hc => hc hr)]
      exact ih hxs

theorem findDescAfter_first (l suf : List (Option ExtractionResult)) (r2 : ExtractionResult)
    (h : ∀ x ∈ l, noUsableDesc x = true) (h2 : r2.description ∉ descSentinels) :
    findDescAfter (l ++ some r2 :: suf) = some r2.description := by
  induction l with
  | nil =>
    show findDescAfter (some r2 :: suf) = some r2.description
    simp only [findDescAfter]
    rw [if_pos h2]
  | cons x xs ih =>
    have hxs := fun y hy => h y (List.mem_cons_of_mem x hy)
    cases x with
    | none => exact ih hxs
    | some r =>
      have hr : r.description ∈ descSentinels := by
        have := h (some r) (List.mem_cons_self _ _)
        simpa [noUsableDesc] using this
      show findDescAfter (some r :: (xs ++ some r2 :: suf)) = some r2.description
      simp only [findDescAfter]
      rw [if_neg (fun hc => hc hr)]
      exact ih hxs

/-- C1: if every earlier strategy raised and the first one that returns
yields both fields non-sentinel, the orchestrator returns that result
verbatim, whatever the later strategies would do (so they are never
consulted). -/
theorem C1_orchestrator_full_success_short_circuit
    (pre suf : List (Option ExtractionResult)) (r : ExtractionResult)
    (hpre : ∀ x ∈ pre, x = none)
    (ht : r.title ∉ titleSentinels) (hd : r.description ∉ descSentinels) :
    get_youtube_info (pre ++ some r :: suf) = r := by
  rw [get_youtube_info_skip pre _ (fun x hx => by rw [hpre x hx]; rfl)]
  simp only [get_youtube_info]
  rw [if_pos ⟨ht, hd⟩]

/-- Witness for C1: strategy 1 raises, strategy 2 fully succeeds, strategy
3 (which would give a different answer) is never consulted. -/
theorem C1_witness :
    get_youtube_info [none, some ⟨"A title", "A description"⟩, some ⟨"Other", "Other d"⟩] =
      { title := "A title", description := "A description" } :=
  C1_orchestrator_full_success_short_circuit [none] [some ⟨"Other", "Other d"⟩]
    ⟨"A title", "A description"⟩ (by decide) (by decide) (by decide)

/-- C2: when the orchestrator reaches a strategy with a usable title but a
sentinel description, it keeps that title and scans only the later
strategies for a description — taking the first non-sentinel one found
(first conjunct), or returning the remembered title with the strategy's
own sentinel description when none of the later strategies produce one
(second conjunct); the third conjunct is the claim's concrete scenario:
strategy 1 title-only, strategy 2 raises, strategy 3 description-only. -/
theorem C2_orchestrator_title_merge :
    (∀ (pre suf1 suf2 : List (Option ExtractionResult)) (r r2 : ExtractionResult),
      (∀ x ∈ pre, skippedOutcome x = true) →
      r.title ∉ titleSentinels → r.description ∈ descSentinels →
      (∀ x ∈ suf1, noUsableDesc x = true) →
      r2.description ∉ descSentinels →
      get_youtube_info (pre ++ some r :: (suf1 ++ some r2 :: suf2)) =
        { title := r.title, description := r2.description }) ∧
    (∀ (pre suf : List (Option ExtractionResult)) (r : ExtractionResult),
      (∀ x ∈ pre, skippedOutcome x = true) →
      r.title ∉ titleSentinels → r.description ∈ descSentinels →
      (∀ x ∈ suf, noUsableDesc x = true) →
      get_youtube_info (pre ++ some r :: suf) = r) ∧
    (get_youtube_info [some ⟨"Video title", "Description not found"⟩, none,
        some ⟨"Title not found", "Video description"⟩] =
      { title := "Video title", description := "Video description" }) := by
  refine ⟨?_, ?_, by decide⟩
  · intro pre suf1 suf2 r r2 hpre ht hd hsuf1 hd2
    rw [get_youtube_info_skip pre _ hpre]
    simp only [get_youtube_info]
    rw [if_neg (fun hc => hc.2 hd), if_pos ht, findDescAfter_first suf1 suf2 r2 hsuf1 hd2]
  · intro pre suf r hpre ht hd hsuf
    rw [get_youtube_info_skip pre _ hpre]
    simp only [get_youtube_info]
    rw [if_neg (fun hc => hc.2 hd), if_pos ht, findDescAfter_none suf hsuf]

/-- Witness for C2, applying the first conjunct at a concrete run:
strategy 1 returns a title with a sentinel description, strategy 2 raises,
strategy 3 has a usable description. -/
theorem C2_witness :
    get_youtube_info [some ⟨"Kept title", "Error"⟩, none, some ⟨"Ignored", "Found description"⟩] =
      { title := "Kept title", description := "Found description" } :=
  C2_orchestrator_title_merge.1 [] [none] [] ⟨"Kept title", "Error"⟩
    ⟨"Ignored", "Found description"⟩ (by decide) (by decide) (by decide) (by decide) (by decide)

/-- C3 counterexample: on a total failure the orchestrator does not return
the pair quoted by the claim (the source capitalises both sentinels and
says "Could not extract video information", not "could not extract
information"). -/
theorem C3_counterexample :
    get_youtube_info [none, none, none] ≠
      { title := "all extraction methods failed",
        description := "could not extract information" } := by
  decide

/-- C3 as amended: the orchestrator (a total function — it can never
raise) returns exactly `{"All extraction methods failed", "Could not
extract video information"}` whenever every strategy raises or yields a
sentinel title. -/
theorem C3_amended_total_failure_sentinels (outcomes : List (Option ExtractionResult))
    (h : ∀ x ∈ outcomes, skippedOutcome x = true) :
    get_youtube_info outcomes =
      { title := "All extraction methods failed",
        description := "Could not extract video information" } := by
  have := get_youtube_info_skip outcomes [] h
  simpa using this

/-- Witness for C3 (amended) at the all-raised run. -/
theorem C3_witness :
    get_youtube_info [none, none, none] =
      { title := "All extraction methods failed",
        description := "Could not extract video information" } :=
  C3_amended_total_failure_sentinels [none, none, none] (by decide)

/-- The returned title is always either a strategy title that passed the
orchestrator's own sentinel test, or the total-failure sentinel pair. -/
theorem get_youtube_info_title_origin (outcomes : List (Option ExtractionResult)) :
    (∃ r, some r ∈ outcomes ∧ (get_youtube_info outcomes).title = r.title ∧
      r.title ∉ titleSentinels) ∨
    get_youtube_info outcomes =
      { title := "All extraction methods failed",
        description := "Could not extract video information" } := by
  induction outcomes with
  | nil => exact Or.inr rfl
  | cons x rest ih =>
    cases x with
    | none =>
      rw [show get_youtube_info (none :: rest) = get_youtube_info rest from rfl]
      rcases ih with ⟨r, hmem, hti, hs⟩ | hfail
      · exact Or.inl ⟨r, List.mem_cons_of_mem _ hmem, hti, hs⟩
      · exact Or.inr hfail
    | some r =>
      by_cases h1 : r.title ∉ titleSentinels ∧ r.description ∉ descSentinels
      · have : get_youtube_info (some r :: rest) = r := by
          simp only [get_youtube_info]; rw [if_pos h1]
        exact Or.inl ⟨r, List.mem_cons_self _ _, by rw [this], h1.1⟩
      · by_cases h2 : r.title ∉ titleSentinels
        · cases hfd : findDescAfter rest with
          | some d =>
            have : get_youtube_info (some r :: rest) = { title := r.title, description := d } := by
              simp only [get_youtube_info]; rw [if_neg h1, if_pos h2, hfd]
            exact Or.inl ⟨r, List.mem_cons_self _ _, by rw [this], h2⟩
          | none =>
            have : get_youtube_info (some r :: rest) = r := by
              simp only [get_youtube_info]; rw [if_neg h1, if_pos h2, hfd]
            exact Or.inl ⟨r, List.mem_cons_self _ _, by rw [this], h2⟩
        · have : get_youtube_info (some r :: rest) = get_youtube_info rest := by
            simp only [get_youtube_info]; rw [if_neg h1, if_neg h2]
          rw [this]
          rcases ih with ⟨r', hmem, hti, hs⟩ | hfail
          · exact Or.inl ⟨r', List.mem_cons_of_mem _ hmem, hti, hs⟩
          · exact Or.inr hfail

/-- C10 counterexample: a strategy outcome whose title is literally the
orchestrator's failure sentinel but with a genuine description is treated
as a full success, so the claim's implication fails over arbitrary
strategy outcomes. -/
theorem C10_counterexample :
    (get_youtube_info [some ⟨"All extraction methods failed", "A genuine description"⟩]).description ∉
        ["Description not found", "Could not extract video information"] ∧
    (get_youtube_info [some ⟨"All extraction methods failed", "A genuine description"⟩]).title ∈
        ["Title not found", "All extraction methods failed"] := by
  decide

/-- C10 as amended: provided no strategy outcome carries the literal
orchestrator failure sentinel as its title (no strategy in the source ever
produces it by itself), a returned description that is not one of the
failure sentinels comes with a title that is not one of the failure
sentinels — in particular a description-only outcome is skipped and its
description discarded. -/
theorem C10_amended_usable_desc_implies_usable_title
    (outcomes : List (Option ExtractionResult))
    (hno : ∀ x ∈ outcomes, ∀ r : ExtractionResult, x = some r →
      r.title ≠ "All extraction methods failed")
    (hdesc : (get_youtube_info outcomes).description ∉
      ["Description not found", "Could not extract video information"]) :
    (get_youtube_info outcomes).title ∉ ["Title not found", "All extraction methods failed"] := by
  rcases get_youtube_info_title_origin outcomes with ⟨r, hmem, hti, hs⟩ | hfail
  · rw [hti]
    intro hin
    rcases List.mem_cons.mp hin with h | h
    · exact hs (by rw [h]; exact List.mem_cons_self _ _)
    · have := hno (some r) hmem r rfl
      simp only [List.mem_singleton] at h
      exact this h
  · exfalso
    apply hdesc
    rw [hfail]
    decide

/-- Witness for C10 (amended) at a single fully-successful outcome. -/
theorem C10_witness :
    (get_youtube_info [some ⟨"Real title", "Real description"⟩]).title ∉
      ["Title not found", "All extraction methods failed"] :=
  C10_amended_usable_desc_implies_usable_title [some ⟨"Real title", "Real description"⟩]
    (by intro x hx r hr; simp at hx; rw [hx] at hr; cases hr; decide)
    (by decide)

/-! ## Normalization of strategy outputs -/

theorem scanPatterns_cases (f : String → String) (ms : List (Option String)) :
    ∀ cur : String, scanPatterns f cur ms = cur ∨
      ∃ m, some m ∈ ms ∧ scanPatterns f cur ms = f m := by
  induction ms with
  | nil => intro cur; exact Or.inl rfl
  | cons o rest ih =>
    intro cur
    cases o with
    | none =>
      rcases ih cur with h | ⟨m, hm, he⟩
      · exact Or.inl h
      · exact Or.inr ⟨m, List.mem_cons_of_mem _ hm, he⟩
    | some m =>
      by_cases hc : stripChars (f m).data = []
      · have heq : scanPatterns f cur (some m :: rest) = scanPatterns f (f m) rest := by
          simp only [scanPatterns]; rw [if_pos hc]
        rcases ih (f m) with h | ⟨m', hm', he'⟩
        · exact Or.inr ⟨m, List.mem_cons_self _ _, heq.trans h⟩
        · exact Or.inr ⟨m', List.mem_cons_of_mem _ hm', heq.trans he'⟩
      · have heq : scanPatterns f cur (some m :: rest) = f m := by
          simp only [scanPatterns]; rw [if_neg hc]
        exact Or.inr ⟨m, List.mem_cons_self _ _, heq⟩

/-- C4 counterexample: in strategy 3's primary (oEmbed) path the title
field is returned exactly as received, not normalized — here the raw field
`"  Hello  "` is returned although the normalizer maps it to `"Hello"`. -/
theorem C4_counterexample :
    (get_youtube_info_method3 (some (some "  Hello  ", none)) none none).title = "  Hello  " ∧
    "  Hello  " ∉ ["Title not found", "Error"] ∧
    clean_description "  Hello  " = "Hello" ∧
    (get_youtube_info_method3 (some (some "  Hello  ", none)) none none).title ≠
      clean_description "  Hello  " := by
  refine ⟨rfl, by decide, by decide, by decide⟩

/-- C4 as amended: every non-sentinel field produced by the three
strategies is the normalizer applied to a matched text (with the
source's `' - YouTube'` suffix removal on method 2 and method 3 fallback
titles), with one exception: the title taken from the oEmbed JSON field in
strategy 3's primary path is returned raw, without normalization. -/
theorem C4_amended_all_fields_normalized_except_oembed_title :
    (∀ tms dms : List (Option String),
      ((get_youtube_info_method1 tms dms).title = "Title not found" ∨
        ∃ m, some m ∈ tms ∧ (get_youtube_info_method1 tms dms).title = clean_description m) ∧
      ((get_youtube_info_method1 tms dms).description = "Description not found" ∨
        ∃ m, some m ∈ dms ∧
          (get_youtube_info_method1 tms dms).description = clean_description m)) ∧
    (∀ tms dms : List (Option String),
      ((get_youtube_info_method2 tms dms).title = "Title not found" ∨
        ∃ m, some m ∈ tms ∧ (get_youtube_info_method2 tms dms).title =
          clean_description (stripYoutubeSuffix m)) ∧
      ((get_youtube_info_method2 tms dms).description = "Description not found" ∨
        ∃ m, some m ∈ dms ∧
          (get_youtube_info_method2 tms dms).description = clean_description m)) ∧
    (∀ (titleField : Option String) (descMatch fbTitle fbDesc : Option String),
      ((get_youtube_info_method3 (some (titleField, descMatch)) fbTitle fbDesc).title =
        titleField.getD "Title not found") ∧
      ((get_youtube_info_method3 (some (titleField, descMatch)) fbTitle fbDesc).description =
          "Description not found" ∨
        ∃ m, descMatch = some m ∧
          (get_youtube_info_method3 (some (titleField, descMatch)) fbTitle fbDesc).description =
            clean_description m) ∧
      ((get_youtube_info_method3 none fbTitle fbDesc).title = "Title not found" ∨
        ∃ m, fbTitle = some m ∧ (get_youtube_info_method3 none fbTitle fbDesc).title =
          clean_description (stripYoutubeSuffix m)) ∧
      ((get_youtube_info_method3 none fbTitle fbDesc).description = "Description not found" ∨
        ∃ m, fbDesc = some m ∧ (get_youtube_info_method3 none fbTitle fbDesc).description =
          clean_description m)) := by
  refine ⟨?_, ?_, ?_⟩
  · intro tms dms
    exact ⟨scanPatterns_cases clean_description tms "Title not found",
      scanPatterns_cases clean_description dms "Description not found"⟩
  · intro tms dms
    exact ⟨scanPatterns_cases (fun m => clean_description (stripYoutubeSuffix m)) tms
        "Title not found",
      scanPatterns_cases clean_description dms "Description not found"⟩
  · intro titleField descMatch fbTitle fbDesc
    refine ⟨rfl, ?_, ?_, ?_⟩
    · cases descMatch with
      | none => exact Or.inl rfl
      | some m => exact Or.inr ⟨m, rfl, rfl⟩
    · cases fbTitle with
      | none => exact Or.inl rfl
      | some m => exact Or.inr ⟨m, rfl, rfl⟩
    · cases fbDesc with
      | none => exact Or.inl rfl
      | some m => exact Or.inr ⟨m, rfl, rfl⟩

/-! ## Properties of the identifier parser -/

/-- The part of the VideoRef invariant the code maintains: a returned
(non-`None`) identifier contains no query-separator characters. -/
def idClean : Option String → Prop
  | none => True
  | some v => '&' ∉ v.data ∧ '?' ∉ v.data

theorem not_mem_takeWhile_ne (a : Char) (l : List Char) :
    a ∉ l.takeWhile (fun c => c != a) := by
  intro h
  have := List.mem_takeWhile_imp h
  simp at this

theorem cleanId_no_separators (v : List Char) : '&' ∉ cleanId v ∧ '?' ∉ cleanId v := by
  constructor
  · intro h
    have hmem : '&' ∈ v.takeWhile (fun c => c != '&') :=
      (List.takeWhile_sublist _).subset h
    exact not_mem_takeWhile_ne '&' v hmem
  · exact not_mem_takeWhile_ne '?' _

theorem videoId_no_separators (url : String) : idClean (get_video_id_from_url url) := by
  unfold get_video_id_from_url
  cases hrv : rawVideoId url.data with
  | none => exact trivial
  | some v =>
    show idClean (if v = [] then some (String.mk v) else some (String.mk (cleanId v)))
    by_cases hv : v = []
    · rw [if_pos hv]
      subst hv
      exact ⟨by simp, by simp⟩
    · rw [if_neg hv]
      exact cleanId_no_separators v

/-- `get_video_id_from_url` is the raw shape dispatch followed by the
`&`/`?` clean-up (the clean-up is skipped on a falsy id, but cleaning the
empty id is a no-op, so the composed form is exact). -/
theorem get_video_id_eq_map (url : String) :
    get_video_id_from_url url = (rawVideoId url.data).map (fun v => String.mk (cleanId v)) := by
  unfold get_video_id_from_url
  cases rawVideoId url.data with
  | none => rfl
  | some v =>
    show (if v = [] then some (String.mk v) else some (String.mk (cleanId v))) =
      Option.map (fun w => String.mk (cleanId w)) (some v)
    by_cases hv : v = []
    · rw [if_pos hv]
      subst hv
      rfl
    · rw [if_neg hv]
      rfl

theorem rawVideoId_watch (url : List Char)
    (hhost : pyHostname (pyUrlparse url).netloc = some "www.youtube.com".data ∨
      pyHostname (pyUrlparse url).netloc = some "youtube.com".data)
    (hwatch : isSubstringOf "/watch".data (pyUrlparse url).path = true) :
    rawVideoId url = qsFirstV (pyUrlparse url).query := by
  have hne : pyHostname (pyUrlparse url).netloc ≠ some "youtu.be".data := by
    rcases hhost with h | h <;> rw [h] <;> decide
  simp only [rawVideoId]
  rw [if_neg hne, if_pos hhost, if_pos hwatch]

theorem rawVideoId_embed (url : List Char)
    (hhost : pyHostname (pyUrlparse url).netloc = some "www.youtube.com".data ∨
      pyHostname (pyUrlparse url).netloc = some "youtube.com".data)
    (hnw : isSubstringOf "/watch".data (pyUrlparse url).path = false)
    (hemb : isSubstringOf "/embed/".data (pyUrlparse url).path = true) :
    rawVideoId url = some ((pySplitPart1 "/embed/".data (pyUrlparse url).path).takeWhile
      (fun c => c != '?')) := by
  have hne : pyHostname (pyUrlparse url).netloc ≠ some "youtu.be".data := by
    rcases hhost with h | h <;> rw [h] <;> decide
  simp only [rawVideoId]
  rw [if_neg hne, if_pos hhost, if_neg (by simp [hnw]), if_pos hemb]

theorem rawVideoId_vpath (url : List Char)
    (hhost : pyHostname (pyUrlparse url).netloc = some "www.youtube.com".data ∨
      pyHostname (pyUrlparse url).netloc = some "youtube.com".data)
    (hnw : isSubstringOf "/watch".data (pyUrlparse url).path = false)
    (hne2 : isSubstringOf "/embed/".data (pyUrlparse url).path = false)
    (hv : isSubstringOf "/v/".data (pyUrlparse url).path = true) :
    rawVideoId url = some ((pySplitPart1 "/v/".data (pyUrlparse url).path).takeWhile
      (fun c => c != '?')) := by
  have hne : pyHostname (pyUrlparse url).netloc ≠ some "youtu.be".data := by
    rcases hhost with h | h <;> rw [h] <;> decide
  simp only [rawVideoId]
  rw [if_neg hne, if_pos hhost, if_neg (by simp [hnw]), if_neg (by simp [hne2]), if_pos hv]

/-- C7 counterexample: the shape dispatch tests `"/watch" in parsed.path`
(a substring check) before `"/embed/"`, so an `/embed/<id>` URL whose id
contains `watch` is handled as a watch URL and, lacking a `v` parameter,
yields `None` — not the segment after the marker as the claim states. -/
theorem C7_counterexample :
    get_video_id_from_url "https://www.youtube.com/embed/watch1234" = none ∧
    get_video_id_from_url "https://www.youtube.com/embed/watch1234" ≠ some "watch1234" := by
  exact ⟨by decide, by decide⟩

/-- C7 as amended: the shape rules hold universally with the source's
dispatch precedence.  Short-link hosts always give the path after the
leading slash (cleaned); on canonical hosts a path containing `/watch`
(substring test, tried first) gives the `v` query parameter (`None` if
absent), otherwise a path containing `/embed/` gives the text between the
first and second occurrence of `/embed/` with any trailing query
stripped, otherwise `/v/` likewise; any other host gives `None`; anything
after `&` or `?` in a returned identifier is stripped (last conjunct);
and the claim's test vectors hold.  The model is total, so parse errors
cannot raise. -/
theorem C7_amended_shape_rules_with_precedence :
    (∀ url : String,
      pyHostname (pyUrlparse url.data).netloc = some "youtu.be".data →
      get_video_id_from_url url =
        some (String.mk (cleanId ((pyUrlparse url.data).path.drop 1)))) ∧
    (∀ url : String,
      (pyHostname (pyUrlparse url.data).netloc = some "www.youtube.com".data ∨
        pyHostname (pyUrlparse url.data).netloc = some "youtube.com".data) →
      isSubstringOf "/watch".data (pyUrlparse url.data).path = true →
      get_video_id_from_url url =
        (qsFirstV (pyUrlparse url.data).query).map (fun v => String.mk (cleanId v))) ∧
    (∀ url : String,
      (pyHostname (pyUrlparse url.data).netloc = some "www.youtube.com".data ∨
        pyHostname (pyUrlparse url.data).netloc = some "youtube.com".data) →
      isSubstringOf "/watch".data (pyUrlparse url.data).path = false →
      isSubstringOf "/embed/".data (pyUrlparse url.data).path = true →
      get_video_id_from_url url =
        some (String.mk (cleanId ((pySplitPart1 "/embed/".data
          (pyUrlparse url.data).path).takeWhile (fun c => c != '?'))))) ∧
    (∀ url : String,
      (pyHostname (pyUrlparse url.data).netloc = some "www.youtube.com".data ∨
        pyHostname (pyUrlparse url.data).netloc = some "youtube.com".data) →
      isSubstringOf "/watch".data (pyUrlparse url.data).path = false →
      isSubstringOf "/embed/".data (pyUrlparse url.data).path = false →
      isSubstringOf "/v/".data (pyUrlparse url.data).path = true →
      get_video_id_from_url url =
        some (String.mk (cleanId ((pySplitPart1 "/v/".data
          (pyUrlparse url.data).path).takeWhile (fun c => c != '?'))))) ∧
    (∀ url : String,
      pyHostname (pyUrlparse url.data).netloc ≠ some "youtu.be".data →
      pyHostname (pyUrlparse url.data).netloc ≠ some "www.youtube.com".data →
      pyHostname (pyUrlparse url.data).netloc ≠ some "youtube.com".data →
      get_video_id_from_url url = none) ∧
    get_video_id_from_url "https://www.youtube.com/watch?v=xyz789&t=30" = some "xyz789" ∧
    get_video_id_from_url "https://example.com/video" = none ∧
    get_video_id_from_url "https://youtu.be/abc123" = some "abc123" ∧
    get_video_id_from_url "https://www.youtube.com/embed/qq111?x=1" = some "qq111" ∧
    get_video_id_from_url "https://www.youtube.com/v/qq222?x=1" = some "qq222" ∧
    get_video_id_from_url "https://www.youtube.com/watch?t=30" = none ∧
    (∀ url : String, idClean (get_video_id_from_url url)) := by
  refine ⟨?_, ?_, ?_, ?_, ?_, by decide, by decide, by decide, by decide, by decide,
    by decide, ?_⟩
  · intro url h
    rw [get_video_id_eq_map]
    have : rawVideoId url.data = some ((pyUrlparse url.data).path.drop 1) := by
      simp only [rawVideoId]
      rw [if_pos h]
    rw [this]
    rfl
  · intro url hhost hwatch
    rw [get_video_id_eq_map, rawVideoId_watch url.data hhost hwatch]
  · intro url hhost hnw hemb
    rw [get_video_id_eq_map, rawVideoId_embed url.data hhost hnw hemb]
    rfl
  · intro url hhost hnw hne2 hv
    rw [get_video_id_eq_map, rawVideoId_vpath url.data hhost hnw hne2 hv]
    rfl
  · intro url h1 h2 h3
    rw [get_video_id_eq_map]
    have : rawVideoId url.data = none := by
      simp only [rawVideoId]
      rw [if_neg h1, if_neg (fun hc => hc.elim h2 h3)]
    rw [this]
    rfl
  · exact videoId_no_separators

/-- Witness for C7 (amended), applying the `/watch` rule at the claim's
own example and discharging both hypotheses concretely. -/
theorem C7_witness :
    get_video_id_from_url "https://www.youtube.com/watch?v=xyz789&t=30" =
      (qsFirstV (pyUrlparse "https://www.youtube.com/watch?v=xyz789&t=30".data).query).map
        (fun v => String.mk (cleanId v)) :=
  C7_amended_shape_rules_with_precedence.2.1 "https://www.youtube.com/watch?v=xyz789&t=30"
    (Or.inl (by decide)) (by decide)

/-- C8 counterexample: `parseVideoId` can return the empty string (a
non-`None` value violating the non-emptiness half of the VideoRef
invariant): a short-link URL with an empty path segment. -/
theorem C8_counterexample :
    get_video_id_from_url "https://youtu.be/" = some "" ∧
    ¬ (∀ (url v : String), get_video_id_from_url url = some v → v ≠ "") := by
  refine ⟨by decide, fun h => h "https://youtu.be/" "" (by decide) rfl⟩

/-- C8 as amended: every non-`None` identifier contains no
query-separator characters (`&` or `?`); non-emptiness does not hold. -/
theorem C8_amended_no_query_separators (url : String) :
    idClean (get_video_id_from_url url) :=
  videoId_no_separators url

/-! ## Properties of the tag extractor -/

theorem mem_dropWhile_of_not (p : Char → Bool) (c : Char) (l : List Char)
    (hmem : c ∈ l) (hp : p c = false) : c ∈ l.dropWhile p := by
  induction l with
  | nil => cases hmem
  | cons x rest ih =>
    rw [List.dropWhile_cons]
    by_cases hx : p x = true
    · rw [if_pos hx]
      rcases List.mem_cons.mp hmem with h | h
      · subst h; rw [hp] at hx; cases hx
      · exact ih h
    · rw [if_neg hx]; exact hmem

theorem mem_stripChars (c : Char) (l : List Char) (hmem : c ∈ l)
    (hp : isSpaceChar c = false) : c ∈ stripChars l := by
  unfold stripChars
  rw [List.mem_reverse]
  refine mem_dropWhile_of_not _ _ _ ?_ hp
  rw [List.mem_reverse]
  exact mem_dropWhile_of_not _ _ _ hmem hp

theorem stripChars_stripChars_ne_nil (l : List Char) (h : stripChars l ≠ []) :
    stripChars (stripChars l) ≠ [] := by
  have hex : ∃ c ∈ l, isSpaceChar c = false := by
    by_contra hall
    push_neg at hall
    apply h
    have h1 : l.dropWhile isSpaceChar = [] := by
      rw [List.dropWhile_eq_nil_iff]
      intro x hx
      have := hall x hx
      simpa using this
    unfold stripChars
    rw [h1]
    rfl
  obtain ⟨c, hc, hcp⟩ := hex
  have h2 : c ∈ stripChars (stripChars l) :=
    mem_stripChars c _ (mem_stripChars c l hc hcp) hcp
  intro hnil
  rw [hnil] at h2
  cases h2

theorem dedupTags_entries (l : List String) : ∀ seen : List String,
    ∀ t ∈ dedupTags seen l, stripChars t.data ≠ [] := by
  induction l with
  | nil => intro seen t ht; cases ht
  | cons tag rest ih =>
    intro seen t ht
    by_cases hc : tag ∈ seen ∨ stripChars tag.data = []
    · have heq : dedupTags seen (tag :: rest) = dedupTags seen rest := by
        simp only [dedupTags]; rw [if_pos hc]
      rw [heq] at ht
      exact ih seen t ht
    · have heq : dedupTags seen (tag :: rest) =
          String.mk (stripChars tag.data) :: dedupTags (tag :: seen) rest := by
        simp only [dedupTags]; rw [if_neg hc]
      rw [heq] at ht
      rcases List.mem_cons.mp ht with h | h
      · subst h
        show stripChars (stripChars tag.data) ≠ []
        exact stripChars_stripChars_ne_nil _ (fun hnil => hc (Or.inr hnil))
      · exact ih (tag :: seen) t h

/-- C9 counterexample: two raw tags that differ only in surrounding
whitespace are both kept (deduplication compares raw tags while the output
holds stripped tags), so the output can contain the same tag twice. -/
theorem C9_counterexample :
    get_youtube_tags "\"keywords\": [\"a\", \" a\"]" = ["a", "a"] ∧
    ¬ (get_youtube_tags "\"keywords\": [\"a\", \" a\"]").Nodup := by
  exact ⟨by decide, by decide⟩

/-- First-occurrence deduplication as the spec words it ("deduplicates
preserving first-occurrence order"): keep each raw tag the first time it
appears, drop later verbatim repetitions. -/
def dedupFirstOccurrence (seen : List String) : List String → List String
  | [] => []
  | t :: rest =>
    if t ∈ seen then dedupFirstOccurrence seen rest
    else t :: dedupFirstOccurrence (t :: seen) rest

/-- The source's dedup loop is exactly: drop blank-stripping tags, keep
the first occurrence of each raw tag, then strip each kept tag. -/
theorem dedupTags_eq_dedupFirstOccurrence (l : List String) : ∀ seen : List String,
    dedupTags seen l =
      (dedupFirstOccurrence seen (l.filter (fun t => stripChars t.data != []))).map
        (fun t => String.mk (stripChars t.data)) := by
  induction l with
  | nil => intro seen; rfl
  | cons tag rest ih =>
    intro seen
    by_cases hstrip : stripChars tag.data = []
    · have hfil : (tag :: rest).filter (fun t => stripChars t.data != []) =
          rest.filter (fun t => stripChars t.data != []) := by
        rw [List.filter_cons]
        rw [show (stripChars tag.data != []) = false from by rw [hstrip]; rfl]
        simp
      have hskip : dedupTags seen (tag :: rest) = dedupTags seen rest := by
        simp only [dedupTags]; rw [if_pos (Or.inr hstrip)]
      rw [hskip, hfil, ih seen]
    · have hfil : (tag :: rest).filter (fun t => stripChars t.data != []) =
          tag :: rest.filter (fun t => stripChars t.data != []) := by
        rw [List.filter_cons]
        rw [show (stripChars tag.data != []) = true from bne_iff_ne.mpr hstrip]
        simp
      by_cases hmem : tag ∈ seen
      · have hskip : dedupTags seen (tag :: rest) = dedupTags seen rest := by
          simp only [dedupTags]; rw [if_pos (Or.inl hmem)]
        have hdf : dedupFirstOccurrence seen
              (tag :: rest.filter (fun t => stripChars t.data != [])) =
            dedupFirstOccurrence seen (rest.filter (fun t => stripChars t.data != [])) := by
          simp only [dedupFirstOccurrence]; rw [if_pos hmem]
        rw [hskip, hfil, hdf, ih seen]
      · have hkeep : dedupTags seen (tag :: rest) =
            String.mk (stripChars tag.data) :: dedupTags (tag :: seen) rest := by
          simp only [dedupTags]; rw [if_neg (fun hc => hc.elim hmem hstrip)]
        have hdf : dedupFirstOccurrence seen
              (tag :: rest.filter (fun t => stripChars t.data != [])) =
            tag :: dedupFirstOccurrence (tag :: seen)
              (rest.filter (fun t => stripChars t.data != [])) := by
          simp only [dedupFirstOccurrence]; rw [if_neg hmem]
        rw [hkeep, hfil, hdf, List.map_cons, ih (tag :: seen)]

/-- First-occurrence deduplication emits pairwise-distinct raw tags, none
of them already seen. -/
theorem dedupFirstOccurrence_nodup (l : List String) : ∀ seen : List String,
    (dedupFirstOccurrence seen l).Nodup ∧ ∀ t ∈ dedupFirstOccurrence seen l, t ∉ seen := by
  induction l with
  | nil =>
    intro seen
    exact ⟨List.nodup_nil, fun t ht => absurd ht (List.not_mem_nil t)⟩
  | cons tag rest ih =>
    intro seen
    by_cases hmem : tag ∈ seen
    · have heq : dedupFirstOccurrence seen (tag :: rest) =
          dedupFirstOccurrence seen rest := by
        simp only [dedupFirstOccurrence]; rw [if_pos hmem]
      rw [heq]
      exact ih seen
    · have heq : dedupFirstOccurrence seen (tag :: rest) =
          tag :: dedupFirstOccurrence (tag :: seen) rest := by
        simp only [dedupFirstOccurrence]; rw [if_neg hmem]
      rw [heq]
      obtain ⟨hnd, hnm⟩ := ih (tag :: seen)
      refine ⟨?_, ?_⟩
      · rw [List.nodup_cons]
        exact ⟨fun hin => hnm tag hin (List.mem_cons_self tag seen), hnd⟩
      · intro t ht
        rcases List.mem_cons.mp ht with h | h
        · subst h; exact hmem
        · exact fun hts => hnm t h (List.mem_cons_of_mem _ hts)

/-- C9 as amended: for every fetched page the tag list never exceeds 20
entries and never contains an empty or whitespace-only entry (first two
conjuncts); it is exactly the stripped first occurrences of the non-blank
raw tags, in order, capped at 20 (third conjunct), and those first
occurrences are pairwise distinct as raw tags (fourth conjunct) — so a
tag string occurring verbatim in both the "keywords" and the "tags"
arrays is emitted once, at its first position, as the concrete fifth
conjunct shows.  Deduplication compares raw tags while the output holds
stripped tags, however, so stripped entries may still repeat (see the
counterexample). -/
theorem C9_amended_tag_list_shape :
    (∀ content : String, (get_youtube_tags content).length ≤ 20) ∧
    (∀ content : String, ∀ t ∈ get_youtube_tags content, stripChars t.data ≠ []) ∧
    (∀ content : String, get_youtube_tags content =
      ((dedupFirstOccurrence []
          ((tagsFromPattern "keywords".data content.data ++
            tagsFromPattern "tags".data content.data ++
            tagsFromPattern "hashtags".data content.data).filter
            (fun t => stripChars t.data != []))).map
        (fun t => String.mk (stripChars t.data))).take 20) ∧
    (∀ content : String,
      (dedupFirstOccurrence []
        ((tagsFromPattern "keywords".data content.data ++
          tagsFromPattern "tags".data content.data ++
          tagsFromPattern "hashtags".data content.data).filter
          (fun t => stripChars t.data != []))).Nodup) ∧
    (get_youtube_tags "pre \"keywords\": [\"x\", \"y\"] mid \"tags\": [\"x\"] post" =
      ["x", "y"]) := by
  refine ⟨?_, ?_, ?_, ?_, by decide⟩
  · intro content
    simp only [get_youtube_tags]
    rw [List.length_take]
    exact min_le_left _ _
  · intro content t ht
    simp only [get_youtube_tags] at ht
    exact dedupTags_entries _ [] t (List.take_subset 20 _ ht)
  · intro content
    simp only [get_youtube_tags]
    rw [dedupTags_eq_dedupFirstOccurrence _ []]
  · intro content
    exact (dedupFirstOccurrence_nodup _ []).1

/-- Witness for C9 (amended), applying the entry-shape conjunct at a
concrete page. -/
theorem C9_witness : stripChars "x".data ≠ [] :=
  C9_amended_tag_list_shape.2.1 "\"keywords\": [\"x\"]" "x" (by decide)
